import Mathlib

/-!
Verification of the next-zod-route middleware and handler composition layer.

The repository ships a route-builder utility: schemas for params, query and
body are accumulated, middleware functions wrap a terminal handler in an
onion, validation failures produce fixed 400 responses, thrown errors are
normalized to HTTP responses, and plain handler return values are coerced to
JSON responses.  The chain executor, validator, body parser, error
normalizer and response coercion are embedded below and their documented
properties are proved.
-/

set_option maxHeartbeats 1000000

namespace NextZodRoute

/-- JSON-like values used for params, query, body and middleware context. -/
inductive JsonValue where
  | null : JsonValue
  | bool : Bool → JsonValue
  | num : Int → JsonValue
  | str : String → JsonValue
  | obj : List (String × JsonValue) → JsonValue

/-- The accumulating middleware-contributed context mapping. -/
abbrev Data := List (String × JsonValue)

/-- An HTTP response: status, headers and a body string. -/
structure Response where
  status : Nat
  headers : List (String × String)
  body : String
deriving DecidableEq, Repr

/-- Lookup of a key in a context mapping. -/
def lookupData (k : String) (d : Data) : Option JsonValue :=
  (d.find? (fun kv => kv.1 == k)).map (fun kv => kv.2)

/-- Whether a context mapping holds a key. -/
def dataHasKey (d : Data) (k : String) : Bool :=
  d.any (fun kv => kv.1 == k)

/-- Modelled from the spec: shallow merge of a context patch into the
accumulating data mapping, as performed by the missing TypeScript
implementation of the route builder (only the README and lint configuration
are present in the repository snapshot).  Keys of the patch win over
colliding keys of the old mapping; all other keys are kept. -/
def mergeData (old new : Data) : Data :=
  old.filter (fun kv => !dataHasKey new kv.1) ++ new

theorem lookupData_eq_none_of_not_hasKey (k : String) (d : Data)
    (h : dataHasKey d k = false) : lookupData k d = none := by
  induction d with
  | nil => rfl
  | cons kv rest ih =>
      simp only [dataHasKey, List.any_cons, Bool.or_eq_false_iff] at h
      simp only [lookupData, List.find?_cons]
      cases hkv : (kv.1 == k) with
      | true => simp [hkv] at h
      | false =>
          simp only [hkv]
          exact ih (by simpa [dataHasKey] using h.2)

theorem lookupData_isSome_of_hasKey (k : String) (d : Data)
    (h : dataHasKey d k = true) : (lookupData k d).isSome = true := by
  induction d with
  | nil => simp [dataHasKey] at h
  | cons kv rest ih =>
      simp only [dataHasKey, List.any_cons, Bool.or_eq_true] at h
      simp only [lookupData, List.find?_cons]
      cases hkv : (kv.1 == k) with
      | true => simp
      | false =>
          simp only [hkv]
          rcases h with h | h
          · rw [hkv] at h; cases h
          · exact ih (by simpa [dataHasKey] using h)

/-- Lookup after a shallow merge: the patch wins, otherwise the old value. -/
theorem lookupData_mergeData (k : String) (old new : Data) :
    lookupData k (mergeData old new) =
      (lookupData k new).or (lookupData k old) := by
  induction old with
  | nil =>
      simp [mergeData, lookupData, Option.or_none]
  | cons kv rest ih =>
      by_cases hk : dataHasKey new kv.1 = true
      · have hdrop : mergeData (kv :: rest) new = mergeData rest new := by
          simp [mergeData, hk]
        rw [hdrop, ih]
        cases hkv : (kv.1 == k) with
        | false =>
            have : lookupData k (kv :: rest) = lookupData k rest := by
              simp [lookupData, List.find?_cons, hkv]
            rw [this]
        | true =>
            have hkeq : kv.1 = k := by exact beq_iff_eq.mp hkv
            have hnewk : dataHasKey new k = true := by rw [← hkeq]; exact hk
            have := lookupData_isSome_of_hasKey k new hnewk
            rcases Option.isSome_iff_exists.mp this with ⟨v, hv⟩
            simp [hv, Option.or]
      · have hkeep : mergeData (kv :: rest) new = kv :: mergeData rest new := by
          simp [mergeData, hk]
        rw [hkeep]
        cases hkv : (kv.1 == k) with
        | true =>
            have hkeq : kv.1 = k := beq_iff_eq.mp hkv
            have hnone : lookupData k new = none := by
              apply lookupData_eq_none_of_not_hasKey
              rw [← hkeq]
              simpa using hk
            have hL : lookupData k (kv :: mergeData rest new) = some kv.2 := by
              simp [lookupData, List.find?_cons, hkv]
            have hR : lookupData k (kv :: rest) = some kv.2 := by
              simp [lookupData, List.find?_cons, hkv]
            rw [hL, hR, hnone]
            rfl
        | false =>
            have h1 : lookupData k (kv :: mergeData rest new) =
                lookupData k (mergeData rest new) := by
              simp [lookupData, List.find?_cons, hkv]
            have h2 : lookupData k (kv :: rest) = lookupData k rest := by
              simp [lookupData, List.find?_cons, hkv]
            rw [h1, h2, ih]

/-- A structured thrown error: message plus the optional status, code and
metadata fields that make up the documented RouteHandlerError shape. -/
structure ThrownError where
  message : String
  status : Option Nat
  code : Option String
  metadata : Option Data

/-- Trace events recording which user middleware and handler code ran, and
with which accumulated context data. -/
inductive Event where
  | pre : Nat → Data → Event
  | post : Nat → Event
  | handlerRun : Data → Event

/-- Execution order tags of events, forgetting the carried context data. -/
inductive ETag where
  | pre : Nat → ETag
  | post : Nat → ETag
  | handlerRun : ETag
deriving DecidableEq, Repr

/-- The order tag of an event. -/
def Event.tag : Event → ETag
  | Event.pre i _ => ETag.pre i
  | Event.post i => ETag.post i
  | Event.handlerRun _ => ETag.handlerRun

/-- The effect carrier of the embedding: a computation appends trace events
and either returns a value or propagates a thrown error. -/
abbrev M (α : Type) := List Event → Except ThrownError α × List Event

/-- Return a value with no events. -/
def M.pure {α : Type} (a : α) : M α := fun t => (Except.ok a, t)

/-- Sequence two effectful computations; a thrown error short-circuits. -/
def M.bind {α β : Type} (x : M α) (f : α → M β) : M β := fun t =>
  match x t with
  | (Except.ok a, t1) => f a t1
  | (Except.error e, t1) => (Except.error e, t1)

/-- Raise a thrown error. -/
def M.throwErr {α : Type} (e : ThrownError) : M α := fun t => (Except.error e, t)

/-- Record a trace event. -/
def emit (ev : Event) : M Unit := fun t => (Except.ok (), t ++ [ev])

/-- Modelled from the spec: the optional argument of the next continuation
of the missing TypeScript implementation is an options object whose context
field carries the patch to merge. -/
structure NextOptions where
  context : Data

/-- Modelled from the spec: a middleware receives the accumulated context
data and a next continuation, and produces a response (directly, or by
invoking the rest of the chain through next). -/
abbrev Middleware := Data → (NextOptions → M Response) → M Response

/-- Modelled from the spec: the middleware chain executor of the missing
TypeScript implementation.  An empty list calls the terminal handler with
the accumulated data; otherwise the head middleware runs with a continuation
that shallow-merges the patch carried under the context field of the options
and walks the rest of the chain. -/
def runChain : List Middleware → Data → (Data → M Response) → M Response
  | [], d, h => h d
  | mw :: rest, d, h =>
      mw d (fun opts => runChain rest (mergeData d opts.context) h)

/-- A well-behaved middleware step: the context patch it passes to next and
the post-processing it applies to the downstream response. -/
structure NextStep where
  patch : Data
  post : Response → Response

/-- Abstract middleware behaviours: either call next exactly once (pre code,
one next call with a patch, post code transforming the response) or
short-circuit by returning a response without calling next. -/
inductive MwBehavior where
  | callNext : NextStep → MwBehavior
  | shortCircuit : Response → MwBehavior

/-- Interpret a behaviour as a concrete middleware that records trace
events: index i marks its pre and post phases. -/
def interpMw (i : Nat) : MwBehavior → Middleware
  | MwBehavior.callNext s => fun d next =>
      M.bind (emit (Event.pre i d)) (fun _u =>
        M.bind (next ⟨s.patch⟩) (fun resp =>
          M.bind (emit (Event.post i)) (fun _u2 =>
            M.pure (s.post resp))))
  | MwBehavior.shortCircuit r => fun d _next =>
      M.bind (emit (Event.pre i d)) (fun _u => M.pure r)

/-- Interpret a list of behaviours with consecutive indices starting at i. -/
def interpChain (i : Nat) : List MwBehavior → List Middleware
  | [] => []
  | b :: bs => interpMw i b :: interpChain (i + 1) bs

/-- A list of call-next behaviours. -/
def allNext (steps : List NextStep) : List MwBehavior :=
  steps.map MwBehavior.callNext

/-- The context data accumulated after merging the patches of the given
steps in order. -/
def foldPatches (d : Data) : List NextStep → Data
  | [] => d
  | s :: rest => foldPatches (mergeData d s.patch) rest

/-- The pre-phase events of a run through call-next steps, in registration
order, each carrying the context data the middleware observed. -/
def preEvents (i : Nat) (d : Data) : List NextStep → List Event
  | [] => []
  | s :: rest => Event.pre i d :: preEvents (i + 1) (mergeData d s.patch) rest

/-- The post-phase events of a run through call-next steps, in reverse
registration order. -/
def postEvents (i : Nat) : List NextStep → List Event
  | [] => []
  | _s :: rest => postEvents (i + 1) rest ++ [Event.post i]

/-- Outward application of the post-processing of each step: the first
registered middleware transforms last. -/
def applyPosts : List NextStep → Response → Response
  | [], r => r
  | s :: rest, r => s.post (applyPosts rest r)

/-- A terminal handler that records the context data it was invoked with. -/
def tracedHandler (hr : Data → Response) : Data → M Response :=
  fun d => M.bind (emit (Event.handlerRun d)) (fun _u => M.pure (hr d))

/-- Central chain lemma: running interpreted call-next steps in front of an
arbitrary middleware suffix first emits the pre events in order, then runs
the suffix on the merged context, and on success emits the post events in
reverse order while applying the post transformations outward; a thrown
error skips all post phases. -/
theorem runChain_allNext (bs : List NextStep) (ms : List Middleware)
    (i : Nat) (d : Data) (h : Data → M Response) (t : List Event) :
    runChain (interpChain i (allNext bs) ++ ms) d h t =
      match runChain ms (foldPatches d bs) h (t ++ preEvents i d bs) with
      | (Except.ok r, t2) => (Except.ok (applyPosts bs r), t2 ++ postEvents i bs)
      | (Except.error e, t2) => (Except.error e, t2) := by
  induction bs generalizing i d t with
  | nil =>
      simp only [allNext, List.map_nil, interpChain, List.nil_append,
        foldPatches, preEvents, List.append_nil, postEvents, applyPosts]
      cases hres : runChain ms d h t with
      | mk r t2 => cases r <;> simp
  | cons s rest ih =>
      simp only [allNext, List.map_cons, interpChain, List.cons_append,
        runChain, interpMw, M.bind, emit, preEvents, postEvents, applyPosts,
        foldPatches, List.append_eq]
      rw [show (allNext rest = rest.map MwBehavior.callNext) from rfl] at ih
      rw [ih (i + 1) (mergeData d s.patch) (t ++ [Event.pre i d])]
      cases hres : runChain ms (foldPatches (mergeData d s.patch) rest) h
          ((t ++ [Event.pre i d]) ++ preEvents (i + 1) (mergeData d s.patch) rest) with
      | mk r t2 =>
          have harr : (t ++ [Event.pre i d]) ++
              preEvents (i + 1) (mergeData d s.patch) rest =
              t ++ (Event.pre i d :: preEvents (i + 1) (mergeData d s.patch) rest) := by
            simp
          rw [harr] at hres
          rw [hres]
          cases r with
          | ok resp => simp [M.pure, M.bind, emit]
          | error e => simp

/-- The value of the last patch in the list that writes the key, if any. -/
def lastWrite (k : String) : List Data → Option JsonValue
  | [] => none
  | p :: ps => (lastWrite k ps).or (lookupData k p)

/-- Lookup in the accumulated context: the last write wins, falling back to
the initial data. -/
theorem lookupData_foldPatches (k : String) (bs : List NextStep) (d : Data) :
    lookupData k (foldPatches d bs) =
      (lastWrite k (bs.map NextStep.patch)).or (lookupData k d) := by
  induction bs generalizing d with
  | nil => simp [foldPatches, lastWrite]
  | cons s rest ih =>
      simp only [foldPatches, List.map_cons, lastWrite]
      rw [ih, lookupData_mergeData, Option.or_assoc]

/-- Splitting an accumulated run of patches at any point. -/
theorem foldPatches_append (xs ys : List NextStep) (d : Data) :
    foldPatches d (xs ++ ys) = foldPatches (foldPatches d xs) ys := by
  induction xs generalizing d with
  | nil => simp [foldPatches]
  | cons s rest ih => simp [foldPatches, ih]

/-- Merging later patches never removes a key that is already present. -/
theorem lookupData_foldPatches_isSome (k : String) (v : JsonValue)
    (ys : List NextStep) (d : Data) (h : lookupData k d = some v) :
    ∃ w, lookupData k (foldPatches d ys) = some w := by
  induction ys generalizing d v with
  | nil => exact ⟨v, h⟩
  | cons s rest ih =>
      simp only [foldPatches]
      cases hp : lookupData k s.patch with
      | none =>
          apply ih v
          rw [lookupData_mergeData, hp, h]
          rfl
      | some w =>
          apply ih w
          rw [lookupData_mergeData, hp]
          rfl

/-- Every event produced in a pre phase is a pre event with an index in the
covered range, carrying the context accumulated from the earlier patches. -/
theorem mem_preEvents (e : Event) (bs : List NextStep) (i : Nat) (d : Data)
    (h : e ∈ preEvents i d bs) :
    ∃ j, j < bs.length ∧ e = Event.pre (i + j) (foldPatches d (bs.take j)) := by
  induction bs generalizing i d with
  | nil => simp [preEvents] at h
  | cons s rest ih =>
      simp only [preEvents, List.mem_cons] at h
      rcases h with h | h
      · exact ⟨0, by simp, by simpa [foldPatches] using h⟩
      · rcases ih (i + 1) (mergeData d s.patch) h with ⟨j, hj, he⟩
        refine ⟨j + 1, by simpa using Nat.succ_lt_succ hj, ?_⟩
        rw [he]
        have : i + 1 + j = i + (j + 1) := by omega
        rw [this]
        simp [foldPatches, List.take_succ_cons]

/-- Every event produced in a post phase is a post event with an index in
the covered range. -/
theorem mem_postEvents (e : Event) (bs : List NextStep) (i : Nat)
    (h : e ∈ postEvents i bs) :
    ∃ j, j < bs.length ∧ e = Event.post (i + j) := by
  induction bs generalizing i with
  | nil => simp [postEvents] at h
  | cons s rest ih =>
      simp only [postEvents, List.mem_append, List.mem_singleton] at h
      rcases h with h | h
      · rcases ih (i + 1) h with ⟨j, hj, he⟩
        exact ⟨j + 1, by simpa using Nat.succ_lt_succ hj, by rw [he]; congr 1; omega⟩
      · exact ⟨0, by simp, by simpa using h⟩

/-- The order tags of the pre events enumerate the indices in order. -/
theorem preEvents_map_tag (bs : List NextStep) (i : Nat) (d : Data) :
    (preEvents i d bs).map Event.tag = (List.range' i bs.length).map ETag.pre := by
  induction bs generalizing i d with
  | nil => simp [preEvents]
  | cons s rest ih =>
      simp [preEvents, List.range'_succ, Event.tag, ih]

/-- The order tags of the post events enumerate the indices in reverse. -/
theorem postEvents_map_tag (bs : List NextStep) (i : Nat) :
    (postEvents i bs).map Event.tag =
      ((List.range' i bs.length).map ETag.post).reverse := by
  induction bs generalizing i with
  | nil => simp [postEvents]
  | cons s rest ih =>
      simp [postEvents, List.range'_succ, Event.tag, ih]

/-- A validation schema: given the (possibly absent) raw part, return the
typed value on success or nothing on failure.  The schema engine itself is
an external collaborator of the repository. -/
abbrev Schema := Option JsonValue → Option JsonValue

/-- An incoming HTTP request as seen by the compiled handler.  The decoded
forms of the body that the external decoders would produce are carried as
fields, since the decoders themselves are external collaborators. -/
structure Request where
  method : String
  contentType : Option String
  jsonBody : Option JsonValue
  formBody : Option JsonValue
  multipartBody : Option JsonValue
  params : JsonValue
  query : JsonValue

/-- Whether a content type is the JSON one. -/
def isJsonContentType (ct : String) : Bool :=
  ct.startsWith ("application/json")

/-- Whether a content type is the URL encoded form one. -/
def isUrlEncodedContentType (ct : String) : Bool :=
  ct.startsWith ("application/x-www-form-urlencoded")

/-- Whether a content type is the multipart form one. -/
def isMultipartContentType (ct : String) : Bool :=
  ct.startsWith ("multipart/form-data")

/-- Modelled from the spec: the body parser of the missing TypeScript
implementation.  For GET and DELETE requests parsing is skipped and an
absent body is supplied; otherwise the content type header selects the JSON,
URL encoded or multipart decode strategy, and an unsupported or missing
content type yields an absent body so that a configured body schema fails
validation rather than silently receiving an empty object. -/
def parseBody (req : Request) : Option JsonValue :=
  if req.method = "GET" ∨ req.method = "DELETE" then none
  else
    match req.contentType with
    | none => none
    | some ct =>
        if isJsonContentType ct then req.jsonBody
        else if isUrlEncodedContentType ct then req.formBody
        else if isMultipartContentType ct then req.multipartBody
        else none

/-- The left brace character, written out. -/
def lcurly : String := "\x7b"

/-- The right brace character, written out. -/
def rcurly : String := "\x7d"

/-- The fixed JSON error body shape with a message field. -/
def messageBody (msg : String) : String :=
  lcurly ++ "\"message\":\"" ++ msg ++ "\"" ++ rcurly

/-- The JSON content type header. -/
def jsonHeader : String × String := ("content-type", "application/json")

/-- The fixed 400 response for a failed validation slot. -/
def invalidResponse (msg : String) : Response :=
  ⟨400, [jsonHeader], messageBody msg⟩

/-- The generic 500 response that leaks nothing about the thrown error. -/
def internalServerError : Response :=
  ⟨500, [jsonHeader], messageBody ("Internal server error")⟩

/-- Whether a thrown error conforms to the structured RouteHandlerError
shape, exposing a status and a code. -/
def conformsShape (e : ThrownError) : Bool :=
  e.status.isSome && e.code.isSome

/-- Modelled from the spec: the error normalizer of the missing TypeScript
implementation.  A custom error handling function supplied at route-builder
creation receives errors conforming to the structured shape and its response
is returned; with no custom handler, or with an error that does not conform
to the shape, the generic 500 response is returned. -/
def normalizeError (custom : Option (ThrownError → Response))
    (e : ThrownError) : Response :=
  match custom with
  | some f => if conformsShape e then f e else internalServerError
  | none => internalServerError

/-- Whether a configured slot rejects its input part. -/
def slotFails (schema : Option Schema) (input : Option JsonValue) : Bool :=
  match schema with
  | none => false
  | some s => (s input).isNone

/-- Modelled from the spec: validation of one slot of the missing TypeScript
implementation.  An unconfigured slot passes with no attached value; a
configured slot attaches the typed value on success and aborts with the
fixed 400 response on failure. -/
def validateSlot (schema : Option Schema) (input : Option JsonValue)
    (msg : String) : Except Response (Option JsonValue) :=
  match schema with
  | none => Except.ok none
  | some s =>
      match s input with
      | some v => Except.ok (some v)
      | none => Except.error (invalidResponse msg)

/-- The context handed to the terminal handler: validated parts plus the
accumulated middleware data. -/
structure Ctx where
  params : Option JsonValue
  query : Option JsonValue
  body : Option JsonValue
  data : Data

/-- A handler return value: either a native response object or plain data. -/
inductive HandlerResult where
  | response : Response → HandlerResult
  | data : JsonValue → HandlerResult

/-- JSON encoding of a value, used when a plain handler return value is
wrapped into a response body. -/
def encodeJson : JsonValue → String
  | JsonValue.null => "null"
  | JsonValue.bool b => cond b ("true") ("false")
  | JsonValue.num n => toString n
  | JsonValue.str s => "\"" ++ s ++ "\""
  | JsonValue.obj fs =>
      lcurly ++
        String.intercalate (",")
          (fs.attach.map (fun kv =>
            "\"" ++ kv.1.1 ++ "\":" ++ encodeJson kv.1.2)) ++
        rcurly
decreasing_by
  have := List.sizeOf_lt_of_mem kv.2
  cases kv' : kv.1 with
  | mk a b => simp [kv'] at this ⊢; omega

/-- Modelled from the spec: response coercion of the missing TypeScript
implementation.  A native response object passes through unchanged; plain
data is wrapped as a JSON body with status 200 and a JSON content type. -/
def coerceResult : HandlerResult → Response
  | HandlerResult.response r => r
  | HandlerResult.data v => ⟨200, [jsonHeader], encodeJson v⟩

/-- A compiled route: the accumulated schemas, the optional custom error
handling function, the middleware list, and the terminal handler. -/
structure CompiledRoute where
  paramsSchema : Option Schema
  querySchema : Option Schema
  bodySchema : Option Schema
  handleServerError : Option (ThrownError → Response)
  middlewares : List Middleware
  handler : Ctx → M HandlerResult

/-- Modelled from the spec: per-request validation of the missing TypeScript
implementation, running the configured slots in the fixed order params,
query, body, and aborting on the first failure. -/
def validateRequest (cr : CompiledRoute) (req : Request) :
    Except Response (Option JsonValue × Option JsonValue × Option JsonValue) :=
  match validateSlot cr.paramsSchema (some req.params) ("Invalid params") with
  | Except.error r => Except.error r
  | Except.ok p =>
      match validateSlot cr.querySchema (some req.query) ("Invalid query") with
      | Except.error r => Except.error r
      | Except.ok q =>
          match validateSlot cr.bodySchema (parseBody req) ("Invalid body") with
          | Except.error r => Except.error r
          | Except.ok b => Except.ok (p, q, b)

/-- Modelled from the spec: the compiled request handler of the missing
TypeScript implementation.  Validation runs first and a failure aborts
before any middleware; otherwise the middleware chain wraps the terminal
handler, whose return value is coerced to a response, and a thrown error
propagating out of the chain is turned into a response by the error
normalizer. -/
def runRoute (cr : CompiledRoute) (req : Request) : Response × List Event :=
  match validateRequest cr req with
  | Except.error resp => (resp, [])
  | Except.ok (p, q, b) =>
      match runChain cr.middlewares []
          (fun data =>
            M.bind (cr.handler ⟨p, q, b, data⟩)
              (fun hres => M.pure (coerceResult hres))) [] with
      | (Except.ok resp, t) => (resp, t)
      | (Except.error e, t) => (normalizeError cr.handleServerError e, t)

/-- Running a chain of call-next steps with no suffix: the terminal handler
is reached with the merged context after the pre events. -/
theorem runChain_allNext_nil (bs : List NextStep) (i : Nat) (d : Data)
    (h : Data → M Response) (t : List Event) :
    runChain (interpChain i (allNext bs)) d h t =
      match h (foldPatches d bs) (t ++ preEvents i d bs) with
      | (Except.ok r, t2) => (Except.ok (applyPosts bs r), t2 ++ postEvents i bs)
      | (Except.error e, t2) => (Except.error e, t2) := by
  have h0 : interpChain i (allNext bs) = interpChain i (allNext bs) ++ [] := by
    simp
  rw [h0, runChain_allNext]
  rfl

/-- Claim C2: for middleware that each call next exactly once, the compiled
chain runs pre code in registration order, then the terminal handler once on
the fully merged context, then post code in reverse registration order, with
each middleware resuming only after the downstream chain returned, and the
final response is the outward composition of the post transformations
applied to the handler response. -/
theorem middleware_onion_order (bs : List NextStep) (hr : Data → Response)
    (d : Data) :
    runChain (interpChain 0 (allNext bs)) d (tracedHandler hr) [] =
      (Except.ok (applyPosts bs (hr (foldPatches d bs))),
        preEvents 0 d bs ++ [Event.handlerRun (foldPatches d bs)] ++
          postEvents 0 bs)
    ∧ (preEvents 0 d bs ++ [Event.handlerRun (foldPatches d bs)] ++
          postEvents 0 bs).map Event.tag =
        ((List.range bs.length).map ETag.pre) ++ [ETag.handlerRun] ++
          ((List.range bs.length).map ETag.post).reverse := by
  constructor
  · rw [runChain_allNext_nil]
    simp [runChain, tracedHandler, M.bind, emit, M.pure, List.append_assoc]
  · simp [preEvents_map_tag, postEvents_map_tag, Event.tag,
      List.range_eq_range']

/-- Claim C3: a middleware that returns a response without calling next
stops the chain: no later middleware and not the terminal handler runs, and
its response becomes the result, propagated outward through the post phases
of the already entered middleware. -/
theorem middleware_short_circuit_stops_chain (bs : List NextStep)
    (r : Response) (ms : List Middleware) (h : Data → M Response) (d : Data) :
    runChain
        (interpChain 0 (allNext bs) ++
          interpMw bs.length (MwBehavior.shortCircuit r) :: ms) d h [] =
      (Except.ok (applyPosts bs r),
        preEvents 0 d bs ++ [Event.pre bs.length (foldPatches d bs)] ++
          postEvents 0 bs)
    ∧ (∀ c, Event.handlerRun c ∉
        preEvents 0 d bs ++ [Event.pre bs.length (foldPatches d bs)] ++
          postEvents 0 bs)
    ∧ (∀ j c, bs.length < j → Event.pre j c ∉
        preEvents 0 d bs ++ [Event.pre bs.length (foldPatches d bs)] ++
          postEvents 0 bs)
    ∧ (∀ j, bs.length ≤ j → Event.post j ∉
        preEvents 0 d bs ++ [Event.pre bs.length (foldPatches d bs)] ++
          postEvents 0 bs) := by
  refine ⟨?_, ?_, ?_, ?_⟩
  · rw [runChain_allNext]
    simp [runChain, interpMw, M.bind, emit, M.pure, List.append_assoc]
  · intro c hc
    simp only [List.mem_append, List.mem_singleton] at hc
    rcases hc with (hc | hc) | hc
    · rcases mem_preEvents _ _ _ _ hc with ⟨j, _, he⟩
      cases he
    · cases hc
    · rcases mem_postEvents _ _ _ hc with ⟨j, _, he⟩
      cases he
  · intro j c hj hc
    simp only [List.mem_append, List.mem_singleton] at hc
    rcases hc with (hc | hc) | hc
    · rcases mem_preEvents _ _ _ _ hc with ⟨j2, hj2, he⟩
      cases he
      omega
    · cases hc
      omega
    · rcases mem_postEvents _ _ _ hc with ⟨j2, hj2, he⟩
      cases he
  · intro j hj hc
    simp only [List.mem_append, List.mem_singleton] at hc
    rcases hc with (hc | hc) | hc
    · rcases mem_preEvents _ _ _ _ hc with ⟨j2, hj2, he⟩
      cases he
    · cases hc
    · rcases mem_postEvents _ _ _ hc with ⟨j2, hj2, he⟩
      cases he
      omega

/-- Claim C4: context merging through the chain is append-only and shallow.
The handler observes the merge of all patches and each middleware observes
the merge of the earlier ones; a key written by an earlier patch stays
present at every later stage; and on key collisions the later write is the
value observed. -/
theorem context_merge_append_only (bs : List NextStep) (hr : Data → Response) :
    (∀ c, Event.handlerRun c ∈
        (runChain (interpChain 0 (allNext bs)) [] (tracedHandler hr) []).2 →
        c = foldPatches [] bs)
    ∧ (∀ j c, Event.pre j c ∈
        (runChain (interpChain 0 (allNext bs)) [] (tracedHandler hr) []).2 →
        c = foldPatches [] (bs.take j))
    ∧ (∀ k v m1 m2, m1 ≤ m2 →
        lookupData k (foldPatches [] (bs.take m1)) = some v →
        ∃ w, lookupData k (foldPatches [] (bs.take m2)) = some w)
    ∧ (∀ k, lookupData k (foldPatches [] bs) =
        lastWrite k (bs.map NextStep.patch)) := by
  have htr : (runChain (interpChain 0 (allNext bs)) [] (tracedHandler hr) []).2 =
      preEvents 0 [] bs ++ [Event.handlerRun (foldPatches [] bs)] ++
        postEvents 0 bs := by
    rw [runChain_allNext_nil]
    simp [runChain, tracedHandler, M.bind, emit, M.pure, List.append_assoc]
  refine ⟨?_, ?_, ?_, ?_⟩
  · intro c hc
    rw [htr] at hc
    simp only [List.mem_append, List.mem_singleton] at hc
    rcases hc with (hc | hc) | hc
    · rcases mem_preEvents _ _ _ _ hc with ⟨j, _, he⟩
      cases he
    · cases hc
      rfl
    · rcases mem_postEvents _ _ _ hc with ⟨j, _, he⟩
      cases he
  · intro j c hc
    rw [htr] at hc
    simp only [List.mem_append, List.mem_singleton] at hc
    rcases hc with (hc | hc) | hc
    · rcases mem_preEvents _ _ _ _ hc with ⟨j2, hj2, he⟩
      cases he
      simp
    · cases hc
    · rcases mem_postEvents _ _ _ hc with ⟨j2, hj2, he⟩
      cases he
  · intro k v m1 m2 hm hv
    have hsplit : bs.take m2 = bs.take m1 ++ (bs.take m2).drop m1 := by
      conv_lhs => rw [← List.take_append_drop m1 (bs.take m2)]
      rw [List.take_take, Nat.min_eq_left hm]
    rw [hsplit, foldPatches_append]
    exact lookupData_foldPatches_isSome k v _ _ hv
  · intro k
    rw [lookupData_foldPatches]
    simp [lookupData, Option.or_none]

theorem validateSlot_of_fails (schema : Option Schema) (inp : Option JsonValue)
    (msg : String) (h : slotFails schema inp = true) :
    validateSlot schema inp msg = Except.error (invalidResponse msg) := by
  cases schema with
  | none => simp [slotFails] at h
  | some s =>
      simp only [slotFails, Option.isNone_iff_eq_none] at h
      simp [validateSlot, h]

theorem validateSlot_of_passes (schema : Option Schema) (inp : Option JsonValue)
    (msg : String) (h : slotFails schema inp = false) :
    ∃ v, validateSlot schema inp msg = Except.ok v := by
  cases schema with
  | none => exact ⟨none, rfl⟩
  | some s =>
      simp only [slotFails] at h
      cases hs : s inp with
      | none => rw [hs] at h; simp at h
      | some v => exact ⟨some v, by simp [validateSlot, hs]⟩

/-- Shared helper: case analysis of the compiled handler on the earliest
failing validation slot. -/
theorem runRoute_validation_cases
    (pS qS bS : Option Schema) (hse : Option (ThrownError → Response))
    (mws : List Middleware) (hd : Ctx → M HandlerResult) (req : Request) :
    (slotFails pS (some req.params) = true →
      runRoute ⟨pS, qS, bS, hse, mws, hd⟩ req =
        (invalidResponse ("Invalid params"), []))
    ∧ (slotFails pS (some req.params) = false →
       slotFails qS (some req.query) = true →
      runRoute ⟨pS, qS, bS, hse, mws, hd⟩ req =
        (invalidResponse ("Invalid query"), []))
    ∧ (slotFails pS (some req.params) = false →
       slotFails qS (some req.query) = false →
       slotFails bS (parseBody req) = true →
      runRoute ⟨pS, qS, bS, hse, mws, hd⟩ req =
        (invalidResponse ("Invalid body"), [])) := by
  refine ⟨?_, ?_, ?_⟩
  · intro h1
    have e1 := validateSlot_of_fails pS (some req.params) ("Invalid params") h1
    simp [runRoute, validateRequest, e1]
  · intro h1 h2
    rcases validateSlot_of_passes pS (some req.params) ("Invalid params") h1
      with ⟨p, hp⟩
    have e2 := validateSlot_of_fails qS (some req.query) ("Invalid query") h2
    simp [runRoute, validateRequest, hp, e2]
  · intro h1 h2 h3
    rcases validateSlot_of_passes pS (some req.params) ("Invalid params") h1
      with ⟨p, hp⟩
    rcases validateSlot_of_passes qS (some req.query) ("Invalid query") h2
      with ⟨q, hq⟩
    have e3 := validateSlot_of_fails bS (parseBody req) ("Invalid body") h3
    simp [runRoute, validateRequest, hp, hq, e3]

/-- Claim C1 (amended): when a configured slot is the earliest failing one in
the order params, query, body, the compiled handler aborts before any
middleware or handler runs and answers 400 with the fixed message of that
slot.  The result does not depend on the middleware list or the handler. -/
theorem validation_failure_first_slot_aborts
    (pS qS bS : Option Schema) (hse : Option (ThrownError → Response))
    (mws : List Middleware) (hd : Ctx → M HandlerResult) (req : Request) :
    (slotFails pS (some req.params) = true →
      runRoute ⟨pS, qS, bS, hse, mws, hd⟩ req =
        (invalidResponse ("Invalid params"), []))
    ∧ (slotFails pS (some req.params) = false →
       slotFails qS (some req.query) = true →
      runRoute ⟨pS, qS, bS, hse, mws, hd⟩ req =
        (invalidResponse ("Invalid query"), []))
    ∧ (slotFails pS (some req.params) = false →
       slotFails qS (some req.query) = false →
       slotFails bS (parseBody req) = true →
      runRoute ⟨pS, qS, bS, hse, mws, hd⟩ req =
        (invalidResponse ("Invalid body"), [])) :=
  runRoute_validation_cases pS qS bS hse mws hd req

/-- A schema that rejects every input. -/
def failSchema : Schema := fun _x => none

/-- A concrete POST request with a JSON content type and a decoded body. -/
def cReq : Request :=
  ⟨"POST", some ("application/json"), some (JsonValue.obj []), none, none,
    JsonValue.null, JsonValue.null⟩

/-- A concrete terminal handler returning plain data. -/
def cHandler : Ctx → M HandlerResult :=
  fun _c => M.pure (HandlerResult.data JsonValue.null)

theorem validation_failure_aborts_witness :
    runRoute ⟨some failSchema, none, none, none, [], cHandler⟩ cReq =
      (invalidResponse ("Invalid params"), []) :=
  (validation_failure_first_slot_aborts (some failSchema) none none none []
    cHandler cReq).1 rfl

/-- Counterexample to claim C1 as stated: a request whose params part and
body part both fail their configured schemas.  Instantiated at the body
slot, the claim demands the body message, but the compiled handler answers
with the params message. -/
theorem validation_failure_slot_counterexample :
    runRoute ⟨some failSchema, none, some failSchema, none, [], cHandler⟩ cReq =
      (invalidResponse ("Invalid params"), [])
    ∧ invalidResponse ("Invalid params") ≠ invalidResponse ("Invalid body") := by
  exact ⟨rfl, by decide⟩

/-- The fixed message of the earliest failing configured slot, in the fixed
validation order params, query, body. -/
def firstFailingMsg (cr : CompiledRoute) (req : Request) : Option String :=
  if slotFails cr.paramsSchema (some req.params) = true then
    some ("Invalid params")
  else if slotFails cr.querySchema (some req.query) = true then
    some ("Invalid query")
  else if slotFails cr.bodySchema (parseBody req) = true then
    some ("Invalid body")
  else none

/-- Claim C8: validation runs the configured slots in the fixed order
params, query, body, so whenever at least one configured slot fails — in
particular when several fail — the 400 message returned is the one of the
earliest failing slot in that order. -/
theorem validation_order_earliest_slot
    (pS qS bS : Option Schema) (hse : Option (ThrownError → Response))
    (mws : List Middleware) (hd : Ctx → M HandlerResult) (req : Request)
    (msg : String)
    (h : firstFailingMsg ⟨pS, qS, bS, hse, mws, hd⟩ req = some msg) :
    runRoute ⟨pS, qS, bS, hse, mws, hd⟩ req = (invalidResponse msg, []) := by
  have hc := runRoute_validation_cases pS qS bS hse mws hd req
  by_cases h1 : slotFails pS (some req.params) = true
  · have : msg = "Invalid params" := by
      simp [firstFailingMsg, h1] at h
      exact h.symm
    rw [this]
    exact hc.1 h1
  · have h1f : slotFails pS (some req.params) = false :=
      Bool.eq_false_iff.mpr h1
    by_cases h2 : slotFails qS (some req.query) = true
    · have : msg = "Invalid query" := by
        simp [firstFailingMsg, h1, h2] at h
        exact h.symm
      rw [this]
      exact hc.2.1 h1f h2
    · have h2f : slotFails qS (some req.query) = false :=
        Bool.eq_false_iff.mpr h2
      by_cases h3 : slotFails bS (parseBody req) = true
      · have : msg = "Invalid body" := by
          simp [firstFailingMsg, h1, h2, h3] at h
          exact h.symm
        rw [this]
        exact hc.2.2 h1f h2f h3
      · simp [firstFailingMsg, h1, h2, h3] at h

theorem validation_order_earliest_slot_witness :
    runRoute ⟨some failSchema, none, some failSchema, none, [], cHandler⟩
      cReq = (invalidResponse ("Invalid params"), []) :=
  validation_order_earliest_slot (some failSchema) none (some failSchema)
    none [] cHandler cReq ("Invalid params") rfl

/-- Claim C5: response coercion.  A native response object is passed
through unchanged, both in isolation and through the compiled route; a plain
data value is wrapped as a JSON body with status 200 and a JSON content
type, and the plain object with field x mapped to 1 becomes exactly the
expected JSON body. -/
theorem response_coercion_contract :
    (∀ r, coerceResult (HandlerResult.response r) = r)
    ∧ (∀ v, coerceResult (HandlerResult.data v) =
        ⟨200, [jsonHeader], encodeJson v⟩)
    ∧ (∀ req r, runRoute
        ⟨none, none, none, none, [],
          fun _c => M.pure (HandlerResult.response r)⟩ req = (r, []))
    ∧ (∀ req v, runRoute
        ⟨none, none, none, none, [],
          fun _c => M.pure (HandlerResult.data v)⟩ req =
        (⟨200, [jsonHeader], encodeJson v⟩, []))
    ∧ encodeJson (JsonValue.obj [("x", JsonValue.num 1)]) =
        "\x7b\"x\":1\x7d" := by
  refine ⟨fun r => rfl, fun v => rfl, fun req r => rfl, fun req v => rfl, ?_⟩
  simp [encodeJson]
  rfl

/-- A probe response revealing whether the handler context body was empty. -/
def bodyProbe (ob : Option JsonValue) : Response :=
  ⟨cond ob.isNone 204 200, [], ""⟩

/-- Claim C9: for a GET or DELETE request, body parsing is skipped whatever
the content type header and decoded body fields hold, the value supplied to
body validation is the absent body, and with no configured body schema the
terminal handler observes an absent context body. -/
theorem get_delete_skip_body (req : Request)
    (h : req.method = "GET" ∨ req.method = "DELETE") :
    parseBody req = none
    ∧ (∀ bS msg, validateSlot bS (parseBody req) msg =
        validateSlot bS none msg)
    ∧ (∀ hse, runRoute
        ⟨none, none, none, hse, [],
          fun c => M.pure (HandlerResult.response (bodyProbe c.body))⟩ req =
        (⟨204, [], ""⟩, [])) := by
  have hp : parseBody req = none := by
    simp [parseBody, h]
  refine ⟨hp, fun bS msg => by rw [hp], fun hse => rfl⟩

/-- A concrete GET request carrying a content type and decoded body forms. -/
def cGetReq : Request :=
  ⟨"GET", some ("application/json"), some (JsonValue.obj []),
    some (JsonValue.obj []), some (JsonValue.obj []),
    JsonValue.null, JsonValue.null⟩

theorem get_delete_skip_body_witness :
    parseBody cGetReq = none ∧
      runRoute
        ⟨none, none, none, none, [],
          fun c => M.pure (HandlerResult.response (bodyProbe c.body))⟩ cGetReq =
        (⟨204, [], ""⟩, []) :=
  ⟨(get_delete_skip_body cGetReq (Or.inl rfl)).1,
    (get_delete_skip_body cGetReq (Or.inl rfl)).2.2 none⟩

/-- Claim C6: with no custom error handling function, or with a thrown
error that does not conform to the structured shape, the normalized response
is the constant generic 500 internal server error — independent of the
error, so nothing from it leaks — and the compiled route behaves
accordingly when the handler throws after any chain of well-behaved
middleware, whose post phases are skipped. -/
theorem unstructured_error_internal_500
    (hse : Option (ThrownError → Response)) (e : ThrownError)
    (h : hse = none ∨ conformsShape e = false) :
    normalizeError hse e = internalServerError
    ∧ ∀ (bs : List NextStep) (req : Request),
        runRoute ⟨none, none, none, hse, interpChain 0 (allNext bs),
          fun _c => M.throwErr e⟩ req =
        (internalServerError, preEvents 0 [] bs) := by
  have hnorm : normalizeError hse e = internalServerError := by
    rcases h with h | h
    · rw [h]
      rfl
    · cases hse with
      | none => rfl
      | some f => simp [normalizeError, h]
  refine ⟨hnorm, ?_⟩
  intro bs req
  have hchain : runChain (interpChain 0 (allNext bs)) []
      (fun data => M.bind (M.throwErr e)
        (fun hres => M.pure (coerceResult hres))) [] =
      (Except.error e, preEvents 0 [] bs) := by
    rw [runChain_allNext_nil]
    rfl
  show (match runChain (interpChain 0 (allNext bs)) []
      (fun data => M.bind (M.throwErr e)
        (fun hres => M.pure (coerceResult hres))) [] with
    | (Except.ok resp, t) => (resp, t)
    | (Except.error e2, t) => (normalizeError hse e2, t)) =
    (internalServerError, preEvents 0 [] bs)
  rw [hchain]
  show (normalizeError hse e, preEvents 0 [] bs) =
    (internalServerError, preEvents 0 [] bs)
  rw [hnorm]

/-- An error with no structured fields at all. -/
def plainError : ThrownError := ⟨"boom", none, none, none⟩

theorem unstructured_error_internal_500_witness :
    normalizeError none plainError = internalServerError
    ∧ runRoute ⟨none, none, none, none, [],
        fun _c => M.throwErr plainError⟩ cReq = (internalServerError, []) := by
  have hth := unstructured_error_internal_500 none plainError (Or.inl rfl)
  exact ⟨hth.1, hth.2 [] cReq⟩

/-- A custom error handling function echoing the structured error fields. -/
def echoError (e : ThrownError) : Response :=
  ⟨e.status.getD 500, [jsonHeader],
    lcurly ++ "\"code\":\"" ++ e.code.getD ("") ++ "\",\"message\":\"" ++
      e.message ++ "\"" ++ rcurly⟩

/-- A structured error of the documented 422 shape with code X. -/
def conformingError : ThrownError := ⟨"m", some 422, some ("X"), none⟩

/-- Claim C7 (amended): a custom error handling function supplied at
route-builder creation receives every thrown error that conforms to the
structured shape, and its response is the route response; in particular the
422 error with code X handled by the echoing custom handler yields status
422 and a body carrying code X. -/
theorem structured_error_custom_handler
    (f : ThrownError → Response) (e : ThrownError)
    (hc : conformsShape e = true) :
    normalizeError (some f) e = f e
    ∧ (∀ (bs : List NextStep) (req : Request),
        runRoute ⟨none, none, none, some f, interpChain 0 (allNext bs),
          fun _c => M.throwErr e⟩ req = (f e, preEvents 0 [] bs))
    ∧ (runRoute ⟨none, none, none, some echoError, [],
        fun _c => M.throwErr conformingError⟩ cReq).1 =
        echoError conformingError
    ∧ (echoError conformingError).status = 422
    ∧ (echoError conformingError).body =
        lcurly ++ "\"code\":\"X\",\"message\":\"m\"" ++ rcurly := by
  have hnorm : normalizeError (some f) e = f e := by
    simp [normalizeError, hc]
  refine ⟨hnorm, ?_, rfl, rfl, rfl⟩
  intro bs req
  have hchain : runChain (interpChain 0 (allNext bs)) []
      (fun data => M.bind (M.throwErr e)
        (fun hres => M.pure (coerceResult hres))) [] =
      (Except.error e, preEvents 0 [] bs) := by
    rw [runChain_allNext_nil]
    rfl
  show (match runChain (interpChain 0 (allNext bs)) []
      (fun data => M.bind (M.throwErr e)
        (fun hres => M.pure (coerceResult hres))) [] with
    | (Except.ok resp, t) => (resp, t)
    | (Except.error e2, t) => (normalizeError (some f) e2, t)) =
    (f e, preEvents 0 [] bs)
  rw [hchain]
  show (normalizeError (some f) e, preEvents 0 [] bs) =
    (f e, preEvents 0 [] bs)
  rw [hnorm]

theorem structured_error_custom_handler_witness :
    normalizeError (some echoError) conformingError =
      echoError conformingError
    ∧ runRoute ⟨none, none, none, some echoError, [],
        fun _c => M.throwErr conformingError⟩ cReq =
      (echoError conformingError, []) := by
  have hth := structured_error_custom_handler echoError conformingError rfl
  exact ⟨hth.1, hth.2.1 [] cReq⟩

/-- An error exposing a status but no code: it does not conform to the
structured shape. -/
def nonConformingError : ThrownError := ⟨"boom", some 418, none, none⟩

/-- Counterexample to claim C7 as stated: with a custom error handling
function configured, an error that does not conform to the structured shape
is not given to the custom function — the route answers with the generic
500 response instead of the response of the custom function. -/
theorem custom_handler_nonconforming_counterexample :
    (runRoute ⟨none, none, none, some echoError, [],
        fun _c => M.throwErr nonConformingError⟩ cReq).1 = internalServerError
    ∧ (runRoute ⟨none, none, none, some echoError, [],
        fun _c => M.throwErr nonConformingError⟩ cReq).1 ≠
        echoError nonConformingError := by
  refine ⟨rfl, ?_⟩
  intro hcontr
  have : internalServerError = echoError nonConformingError := by
    rw [← hcontr]
    rfl
  exact absurd (congrArg Response.status this) (by decide)

/-- Claim C10: a context patch travels as the context field of the options
object given to next, and the accumulated middleware values reach the
terminal handler nested under the data field of its context, merged in
order; the handler runs exactly on that accumulated data. -/
theorem next_context_patch_reaches_handler_data
    (bs : List NextStep) (req : Request) (hr : Data → Response) :
    runRoute ⟨none, none, none, none, interpChain 0 (allNext bs),
      fun c => M.bind (emit (Event.handlerRun c.data))
        (fun _u => M.pure (HandlerResult.response (hr c.data)))⟩ req =
      (applyPosts bs (hr (foldPatches [] bs)),
        preEvents 0 [] bs ++ [Event.handlerRun (foldPatches [] bs)] ++
          postEvents 0 bs)
    ∧ ∀ c, Event.handlerRun c ∈
        (preEvents 0 [] bs ++ [Event.handlerRun (foldPatches [] bs)] ++
          postEvents 0 bs) → c = foldPatches [] bs := by
  constructor
  · have hchain : runChain (interpChain 0 (allNext bs)) []
        (fun data => M.bind
          (M.bind (emit (Event.handlerRun data))
            (fun _u => M.pure (HandlerResult.response (hr data))))
          (fun hres => M.pure (coerceResult hres))) [] =
        (Except.ok (applyPosts bs (hr (foldPatches [] bs))),
          preEvents 0 [] bs ++ [Event.handlerRun (foldPatches [] bs)] ++
            postEvents 0 bs) := by
      rw [runChain_allNext_nil]
      simp [M.bind, emit, M.pure, coerceResult, List.append_assoc]
    show (match runChain (interpChain 0 (allNext bs)) []
        (fun data => M.bind
          (M.bind (emit (Event.handlerRun data))
            (fun _u => M.pure (HandlerResult.response (hr data))))
          (fun hres => M.pure (coerceResult hres))) [] with
      | (Except.ok resp, t) => (resp, t)
      | (Except.error e2, t) => (normalizeError none e2, t)) =
      (applyPosts bs (hr (foldPatches [] bs)),
        preEvents 0 [] bs ++ [Event.handlerRun (foldPatches [] bs)] ++
          postEvents 0 bs)
    rw [hchain]
  · intro c hc
    simp only [List.mem_append, List.mem_singleton] at hc
    rcases hc with (hc | hc) | hc
    · rcases mem_preEvents _ _ _ _ hc with ⟨j, _, he⟩
      cases he
    · cases hc
      rfl
    · rcases mem_postEvents _ _ _ hc with ⟨j, _, he⟩
      cases he

/-- A concrete middleware step writing key k. -/
def cStep : NextStep := ⟨[(("k"), JsonValue.num 1)], fun r => r⟩

/-- A concrete middleware step writing key k2. -/
def cStepTwo : NextStep := ⟨[(("k2"), JsonValue.num 2)], fun r => r⟩

/-- A concrete response. -/
def cResp : Response := ⟨401, [jsonHeader], messageBody ("Unauthorized")⟩

/-- Another concrete response. -/
def cRespTwo : Response := ⟨200, [jsonHeader], messageBody ("ok")⟩

theorem middleware_short_circuit_witness :
    runChain (interpChain 0 (allNext [cStep]) ++
        interpMw 1 (MwBehavior.shortCircuit cResp) :: [])
      [] (tracedHandler (fun _d => cRespTwo)) [] =
      (Except.ok (applyPosts [cStep] cResp),
        preEvents 0 [] [cStep] ++ [Event.pre 1 (foldPatches [] [cStep])] ++
          postEvents 0 [cStep])
    ∧ Event.post 5 ∉
        preEvents 0 [] [cStep] ++ [Event.pre 1 (foldPatches [] [cStep])] ++
          postEvents 0 [cStep] := by
  have hth := middleware_short_circuit_stops_chain [cStep] cResp []
    (tracedHandler (fun _d => cRespTwo)) []
  exact ⟨hth.1, hth.2.2.2 5 (by decide)⟩

theorem context_merge_append_only_witness :
    (∃ w, lookupData ("k")
        (foldPatches [] ([cStep, cStepTwo].take 2)) = some w)
    ∧ lookupData ("k") (foldPatches [] [cStep, cStepTwo]) =
        lastWrite ("k") ([cStep, cStepTwo].map NextStep.patch) := by
  have hth := context_merge_append_only [cStep, cStepTwo] (fun _d => cResp)
  exact ⟨hth.2.2.1 ("k") (JsonValue.num 1) 1 2 (by decide) rfl,
    hth.2.2.2 ("k")⟩

theorem next_context_patch_witness :
    runRoute ⟨none, none, none, none, interpChain 0 (allNext [cStep]),
      fun c => M.bind (emit (Event.handlerRun c.data))
        (fun _u => M.pure (HandlerResult.response cResp))⟩ cReq =
      (applyPosts [cStep] cResp,
        preEvents 0 [] [cStep] ++
          [Event.handlerRun (foldPatches [] [cStep])] ++ postEvents 0 [cStep])
    ∧ foldPatches [] [cStep] = foldPatches [] [cStep] := by
  have hth := next_context_patch_reaches_handler_data [cStep] cReq
    (fun _d => cResp)
  exact ⟨hth.1, hth.2 (foldPatches [] [cStep]) (by simp)⟩

end NextZodRoute
